import Mathlib

/-!
Verification of the bwrappy configuration pipeline: the multi-fragment merge
engine, the schema validator, the argument translator, the environment-variable
substitution of the loader, and the file-descriptor lifecycle, shallowly
embedded from `src/runner.py` and `src/models.py`.
-/

set_option maxRecDepth 8000

/-- Untyped YAML-like value, the shape of a raw configuration fragment
(`RawFragment` of the spec): Python scalars, lists and insertion-ordered
dicts as produced by the YAML loader. -/
inductive RawVal where
  | str (s : String)
  | int (n : Int)
  | bool (b : Bool)
  | list (xs : List RawVal)
  | dict (xs : List (String × RawVal))

mutual

/-- Equality of raw values (Python `==` on loaded YAML values). -/
def rvBeq : RawVal → RawVal → Bool
  | .str a, .str b => a == b
  | .int a, .int b => a == b
  | .bool a, .bool b => a == b
  | .list xs, .list ys => rvBeqL xs ys
  | .dict xs, .dict ys => rvBeqD xs ys
  | _, _ => false

/-- Equality of raw value lists. -/
def rvBeqL : List RawVal → List RawVal → Bool
  | [], [] => true
  | x :: xs, y :: ys => rvBeq x y && rvBeqL xs ys
  | _, _ => false

/-- Equality of raw dicts (association lists). -/
def rvBeqD : List (String × RawVal) → List (String × RawVal) → Bool
  | [], [] => true
  | (k1, v1) :: xs, (k2, v2) :: ys => k1 == k2 && rvBeq v1 v2 && rvBeqD xs ys
  | _, _ => false

end

theorem rvBeq_iff_aux (n : Nat) :
    (∀ a b : RawVal, sizeOf a ≤ n → (rvBeq a b = true ↔ a = b)) ∧
    (∀ xs ys : List RawVal, sizeOf xs ≤ n → (rvBeqL xs ys = true ↔ xs = ys)) ∧
    (∀ xs ys : List (String × RawVal), sizeOf xs ≤ n → (rvBeqD xs ys = true ↔ xs = ys)) := by
  induction n using Nat.strong_induction_on with
  | _ n ih =>
    refine ⟨?_, ?_, ?_⟩
    · intro a b h
      cases a with
      | str s => cases b <;> simp [rvBeq]
      | int m => cases b <;> simp [rvBeq]
      | bool v => cases b <;> simp [rvBeq]
      | list xs =>
        cases b <;> simp [rvBeq]
        case list ys =>
          have hsz : sizeOf (RawVal.list xs) = 1 + sizeOf xs := by simp
          have hn : 1 ≤ n := by omega
          exact (ih (n - 1) (by omega)).2.1 xs ys (by omega)
      | dict xs =>
        cases b <;> simp [rvBeq]
        case dict ys =>
          have hsz : sizeOf (RawVal.dict xs) = 1 + sizeOf xs := by simp
          exact (ih (n - 1) (by omega)).2.2 xs ys (by omega)
    · intro xs ys h
      cases xs with
      | nil => cases ys <;> simp [rvBeqL]
      | cons x xs =>
        cases ys with
        | nil => simp [rvBeqL]
        | cons y ys =>
          have hsz : sizeOf (x :: xs) = 1 + sizeOf x + sizeOf xs := by simp
          have h1 := (ih (n - 1) (by omega)).1 x y (by omega)
          have h2 := (ih (n - 1) (by omega)).2.1 xs ys (by omega)
          simp [rvBeqL, Bool.and_eq_true, h1, h2]
    · intro xs ys h
      cases xs with
      | nil => cases ys <;> simp [rvBeqD]
      | cons kv xs =>
        cases ys with
        | nil => simp [rvBeqD]
        | cons kv2 ys =>
          obtain ⟨k1, v1⟩ := kv
          obtain ⟨k2, v2⟩ := kv2
          have hsz : sizeOf ((k1, v1) :: xs) = 1 + (1 + sizeOf k1 + sizeOf v1) + sizeOf xs := by
            simp
          have h1 := (ih (n - 1) (by omega)).1 v1 v2 (by omega)
          have h2 := (ih (n - 1) (by omega)).2.2 xs ys (by omega)
          simp [rvBeqD, Bool.and_eq_true, h1, h2, and_assoc]

theorem rvBeq_iff (a b : RawVal) : rvBeq a b = true ↔ a = b :=
  (rvBeq_iff_aux (sizeOf a)).1 a b le_rfl

instance : DecidableEq RawVal := fun a b => decidable_of_iff _ (rvBeq_iff a b)

/-- A raw mapping: an insertion-ordered association list, modelling a Python
dict (keys unique in any dict produced by the YAML loader). -/
abbrev RDict := List (String × RawVal)

/-- `d[k]` lookup on a Python dict: first (only) binding of the key. -/
def lookupD (d : RDict) (k : String) : Option RawVal :=
  match d with
  | [] => none
  | (k0, v0) :: rest => if k0 = k then some v0 else lookupD rest k

/-- `k in d` on a Python dict. -/
def containsKey (d : RDict) (k : String) : Bool :=
  (lookupD d k).isSome

/-- Python dict assignment `d[k] = v`: replace the value in place when the key
exists (keeping its position), otherwise append the new binding at the end. -/
def setEntry (d : RDict) (k : String) (v : RawVal) : RDict :=
  match d with
  | [] => [(k, v)]
  | (k0, v0) :: rest => if k0 = k then (k0, v) :: rest else (k0, v0) :: setEntry rest k v

/-- Python `a.update(b)` on dicts: fold dict assignment over `b`. -/
def dictUpdate (a b : RDict) : RDict :=
  b.foldl (fun acc kv => setEntry acc kv.1 kv.2) a

/-- `list(dict.fromkeys(l))`: drop duplicates, keeping first occurrences. -/
def dedup (l : List RawVal) : List RawVal :=
  l.foldl (fun acc x => if x ∈ acc then acc else acc ++ [x]) []

/-- The `dest` key of a list entry when the entry is a dict carrying one
(`isinstance(item, dict) and 'dest' in item` in `_merge_by_path`). -/
def destOf (item : RawVal) : Option RawVal :=
  match item with
  | .dict xs => lookupD xs "dest"
  | _ => none

/-- Index kept in `_merge_by_path`'s `path_map` for a given `dest` value: the
map is written once per entry in order, so the last index wins. -/
def pathIdx (t : List RawVal) (d : RawVal) : Option Nat :=
  match t with
  | [] => none
  | x :: rest =>
    match pathIdx rest d with
    | some i => some (i + 1)
    | none => if destOf x = some d then some 0 else none

/-- One step of `_merge_by_path`'s second loop, for a single incoming entry:
replace at the `path_map` position of the original target when the `dest`
matches, otherwise append (`orig` is the target list the `path_map` was built
from; the map is not extended as entries are appended). -/
def mbpStep (orig : List RawVal) (acc : List RawVal) (item : RawVal) : List RawVal :=
  match destOf item with
  | some d =>
    match pathIdx orig d with
    | some i => acc.set i item
    | none => acc ++ [item]
  | none => acc ++ [item]

/-- `_merge_by_path(target_list, source_list)` from `src/runner.py`. -/
def mergeByPath (t s : List RawVal) : List RawVal :=
  s.foldl (mbpStep t) t

/-- `pat` is a prefix of `l` (character lists). -/
def isPrefixOfCL : List Char → List Char → Bool
  | [], _ => true
  | _ :: _, [] => false
  | p :: ps, c :: cs => (p == c) && isPrefixOfCL ps cs

/-- `pat` occurs as a contiguous substring of `l` (character lists): Python
`pat in s` on strings. -/
def containsSubCL : List Char → List Char → Bool
  | [], pat => isPrefixOfCL pat []
  | c :: rest, pat => isPrefixOfCL pat (c :: rest) || containsSubCL rest pat

/-- `'dest' in value[0]` from `_deep_merge`: Python `in` on the first list
element (key membership for a dict, substring for a string, membership for a
list; other element shapes raise in Python and cannot reach the branch). -/
def valHasDest (v : RawVal) : Bool :=
  match v with
  | .dict xs => containsKey xs "dest"
  | .str s => containsSubCL s.data "dest".data
  | .list xs => xs.contains (.str "dest")
  | _ => false

/-- The guard `key in ['overlays','file_ops'] or (key == 'binds' and 'dest' in
value[0] if value else False)` of `_deep_merge`'s list branch. -/
def listMergeByDest (k : String) (sl : List RawVal) : Bool :=
  k = "overlays" || k = "file_ops" ||
    (match sl with
     | [] => false
     | x :: _ => k = "binds" && valHasDest x)

/-- The `set` sub-dict of an `env` mapping (`env.get('set', {})`; empty for a
non-dict value, on which the Python `.update` would raise). -/
def envSetD (d : RDict) : RDict :=
  match lookupD d "set" with
  | some (.dict xs) => xs
  | _ => []

/-- `if 'set' not in target['env']: target['env']['set'] = {}`. -/
def envInit (td : RDict) : RDict :=
  if containsKey td "set" then td else setEntry td "set" (.dict [])

/-- `if 'unset' in value: target['env']['unset'] = value['unset']`. -/
def applyUnset (sd d : RDict) : RDict :=
  match lookupD sd "unset" with
  | some u => setEntry d "unset" u
  | none => d

/-- `if 'clear' in value: target['env']['clear'] = value['clear']`. -/
def applyClear (sd d : RDict) : RDict :=
  match lookupD sd "clear" with
  | some c => setEntry d "clear" c
  | none => d

/-- The `env` special case of `_deep_merge` (taken only when the incoming
fragment's `env` mapping contains a `set` key): create `set` in the target if
missing, dict-update it with the incoming `set`, then let the incoming `unset`
and `clear` values fully replace the target's, when present. -/
def mergeEnvSpecial (td sd : RDict) : RDict :=
  applyClear sd (applyUnset sd
    (setEntry (envInit td) "set"
      (.dict (dictUpdate (envSetD (envInit td)) (envSetD sd)))))

/-- The `mounts` special case of `_deep_merge`: per mount-type list, absent
types are appended, present ones are merged by destination path. A non-list
value under a present mount type makes the Python raise; that case is modelled
as a no-op and is exercised by no theorem below. -/
def mergeMounts (td sd : RDict) : RDict :=
  sd.foldl
    (fun acc kv =>
      match lookupD acc kv.1 with
      | none => acc ++ [kv]
      | some tv =>
        match tv, kv.2 with
        | .list tl, .list sl => setEntry acc kv.1 (.list (mergeByPath tl sl))
        | _, _ => acc)
    td

mutual

/-- `_deep_merge(target, source)` from `src/runner.py`, as a function of the
target dict: fold the source's bindings in order, handling each with
`mergeEntry`. -/
def deepMerge : RDict → RDict → RDict
  | target, [] => target
  | target, (k, v) :: rest => deepMerge (mergeEntry target k v) rest

/-- One iteration of `_deep_merge`'s loop body for the binding `k ↦ v`: a new
key is appended; two dicts are merged (`mounts` and `env`-with-`set`
specially, otherwise recursively); two lists are merged destination-keyed or
by deduplicating concatenation; anything else is overridden by the source. -/
def mergeEntry : RDict → String → RawVal → RDict
  | target, k, .dict sd =>
    match lookupD target k with
    | none => target ++ [(k, .dict sd)]
    | some (.dict td) =>
      if k = "mounts" then setEntry target k (.dict (mergeMounts td sd))
      else if k = "env" && containsKey sd "set" then
        setEntry target k (.dict (mergeEnvSpecial td sd))
      else setEntry target k (.dict (deepMerge td sd))
    | some _ => setEntry target k (.dict sd)
  | target, k, .list sl =>
    match lookupD target k with
    | none => target ++ [(k, .list sl)]
    | some (.list tl) =>
      if listMergeByDest k sl then setEntry target k (.list (mergeByPath tl sl))
      else setEntry target k (.list (dedup (tl ++ sl)))
    | some _ => setEntry target k (.list sl)
  | target, k, .str s =>
    match lookupD target k with
    | none => target ++ [(k, .str s)]
    | some _ => setEntry target k (.str s)
  | target, k, .int n =>
    match lookupD target k with
    | none => target ++ [(k, .int n)]
    | some _ => setEntry target k (.int n)
  | target, k, .bool b =>
    match lookupD target k with
    | none => target ++ [(k, .bool b)]
    | some _ => setEntry target k (.bool b)

end

/-- `_load_and_merge_configs`' fold: merge the ordered fragments into an
initially empty mapping. -/
def foldFragments (frags : List RDict) : RDict :=
  frags.foldl deepMerge []

/-! ### Characterization of the destination-keyed merge -/

/-- An incoming entry that replaces the target entry at index `i`: it carries a
`dest` whose `path_map` position in the original target is `i`. -/
def replacesIdx (t : List RawVal) (i : Nat) (x : RawVal) : Bool :=
  match destOf x with
  | some d => pathIdx t d == some i
  | none => false

/-- An incoming entry that is appended: it has no `dest`, or a `dest` absent
from the original target's `path_map`. -/
def isAppended (t : List RawVal) (x : RawVal) : Bool :=
  match destOf x with
  | some d => pathIdx t d == none
  | none => true

/-- Positional spec of one merged target slot: starting at index `i`, each
original entry is replaced by the last incoming entry whose `dest` points at
its index, or kept. -/
def updFrom (t s : List RawVal) : Nat → List RawVal → List RawVal
  | _, [] => []
  | i, orig :: rest =>
    (((s.filter (replacesIdx t i)).getLast?).getD orig) :: updFrom t s (i + 1) rest

/-- The spec's destination-keyed merge, stated from the spec's words: every
target entry stays in position (replaced by the last same-`dest` incoming
entry, if any), and the incoming entries with a fresh `dest` or no `dest` are
appended at the end in order. -/
def mergeByPathSpec (t s : List RawVal) : List RawVal :=
  updFrom t s 0 t ++ s.filter (isAppended t)

theorem pathIdx_lt_length {t : List RawVal} {d : RawVal} {i : Nat}
    (h : pathIdx t d = some i) : i < t.length := by
  induction t generalizing i with
  | nil => simp [pathIdx] at h
  | cons x rest ih =>
    rw [pathIdx] at h
    rcases hrest : pathIdx rest d with _ | j
    · rw [hrest] at h
      by_cases hx : destOf x = some d
      · rw [if_pos hx] at h
        have : i = 0 := by injection h with h0; omega
        simp [this]
      · rw [if_neg hx] at h
        exact absurd h (by simp)
    · rw [hrest] at h
      have hji : j + 1 = i := by injection h
      have := ih hrest
      simp only [List.length_cons]
      omega

theorem updFrom_nil (t : List RawVal) : ∀ (l : List RawVal) (i : Nat), updFrom t [] i l = l := by
  intro l
  induction l with
  | nil => intro i; rfl
  | cons x rest ih => intro i; simp [updFrom, ih]

theorem filter_concat_pos {α : Type} {p : α → Bool} {x : α} (l : List α) (h : p x = true) :
    List.filter p (l ++ [x]) = List.filter p l ++ [x] := by
  simp [List.filter_append, h]

theorem filter_concat_neg {α : Type} {p : α → Bool} {x : α} (l : List α) (h : p x = false) :
    List.filter p (l ++ [x]) = List.filter p l := by
  simp [List.filter_append, h]

theorem updFrom_concat_notRepl {t s : List RawVal} {x : RawVal}
    (h : ∀ i, replacesIdx t i x = false) :
    ∀ (l : List RawVal) (i : Nat), updFrom t (s ++ [x]) i l = updFrom t s i l := by
  intro l
  induction l with
  | nil => intro i; rfl
  | cons orig rest ih =>
    intro i
    rw [updFrom, updFrom, filter_concat_neg _ (h i), ih (i + 1)]

theorem updFrom_concat_ne {t s : List RawVal} {x : RawVal} {d : RawVal} {j : Nat}
    (hd : destOf x = some d) (hj : pathIdx t d = some j) :
    ∀ (l : List RawVal) (i : Nat), (j < i ∨ i + l.length ≤ j) →
      updFrom t (s ++ [x]) i l = updFrom t s i l := by
  intro l
  induction l with
  | nil => intro i _; rfl
  | cons orig rest ih =>
    intro i hrange
    have hne : j ≠ i := by simp only [List.length_cons] at hrange; omega
    have hpx : replacesIdx t i x = false := by
      simp [replacesIdx, hd, hj, hne]
    rw [updFrom, updFrom, filter_concat_neg _ hpx]
    rw [ih (i + 1) (by simp only [List.length_cons] at hrange ⊢; omega)]

theorem updFrom_concat_set {t s : List RawVal} {x : RawVal} {d : RawVal} {j : Nat}
    (hd : destOf x = some d) (hj : pathIdx t d = some j) :
    ∀ (l : List RawVal) (i : Nat), i ≤ j → j - i < l.length →
      updFrom t (s ++ [x]) i l = (updFrom t s i l).set (j - i) x := by
  intro l
  induction l with
  | nil => intro i _ h; simp at h
  | cons orig rest ih =>
    intro i hle hlt
    by_cases hij : i = j
    · subst hij
      have hpx : replacesIdx t i x = true := by simp [replacesIdx, hd, hj]
      rw [updFrom, updFrom, filter_concat_pos _ hpx, List.getLast?_concat]
      have heq : updFrom t (s ++ [x]) (i + 1) rest = updFrom t s (i + 1) rest :=
        updFrom_concat_ne hd hj rest (i + 1) (Or.inl (by omega))
      simp [heq]
    · have hne : j ≠ i := fun h => hij h.symm
      have hpx : replacesIdx t i x = false := by
        simp [replacesIdx, hd, hj, hne]
      rw [updFrom, updFrom, filter_concat_neg _ hpx]
      have hji : j - i = (j - (i + 1)) + 1 := by omega
      rw [ih (i + 1) (by omega) (by simp only [List.length_cons] at hlt; omega)]
      rw [hji]
      simp [List.set]

theorem updFrom_length (t s : List RawVal) :
    ∀ (l : List RawVal) (i : Nat), (updFrom t s i l).length = l.length := by
  intro l
  induction l with
  | nil => intro i; rfl
  | cons orig rest ih => intro i; simp [updFrom, ih]

/-- `_merge_by_path` satisfies the spec's destination-keyed description. -/
theorem mergeByPath_eq_spec (t s : List RawVal) : mergeByPath t s = mergeByPathSpec t s := by
  induction s using List.reverseRecOn with
  | nil => simp [mergeByPath, mergeByPathSpec, updFrom_nil, List.filter]
  | append_singleton s x ih =>
    have hfold : mergeByPath t (s ++ [x]) = mbpStep t (mergeByPath t s) x := by
      simp [mergeByPath, List.foldl_append]
    rw [hfold, ih]
    rcases hd : destOf x with _ | d
    · have hnr : ∀ i, replacesIdx t i x = false := by intro i; simp [replacesIdx, hd]
      have happ : isAppended t x = true := by simp [isAppended, hd]
      simp only [mbpStep, hd]
      rw [mergeByPathSpec, mergeByPathSpec, filter_concat_pos _ happ]
      rw [updFrom_concat_notRepl hnr]
      simp
    · rcases hj : pathIdx t d with _ | j
      · have hnr : ∀ i, replacesIdx t i x = false := by
          intro i; simp [replacesIdx, hd, hj]
        have happ : isAppended t x = true := by simp [isAppended, hd, hj]
        simp only [mbpStep, hd, hj]
        rw [mergeByPathSpec, mergeByPathSpec, filter_concat_pos _ happ]
        rw [updFrom_concat_notRepl hnr]
        simp
      · have happ : isAppended t x = false := by simp [isAppended, hd, hj]
        simp only [mbpStep, hd, hj]
        rw [mergeByPathSpec, mergeByPathSpec, filter_concat_neg _ happ]
        have hjlt : j < t.length := pathIdx_lt_length hj
        rw [updFrom_concat_set hd hj t 0 (by omega) (by omega)]
        rw [List.set_append_left _ _ (by rw [updFrom_length]; omega)]
        simp

/-! ### Lookup lemmas for dict assignment and update -/

theorem lookupD_append (a b : RDict) (k : String) :
    lookupD (a ++ b) k =
      match lookupD a k with
      | some v => some v
      | none => lookupD b k := by
  induction a with
  | nil => simp [lookupD]
  | cons kv rest ih =>
    obtain ⟨k0, v0⟩ := kv
    by_cases h : k0 = k
    · simp [lookupD, h]
    · simp only [List.cons_append, lookupD, if_neg h]
      exact ih

theorem lookupD_eq_none {d : RDict} {k : String} (h : k ∉ d.map Prod.fst) :
    lookupD d k = none := by
  induction d with
  | nil => rfl
  | cons kv rest ih =>
    obtain ⟨k0, v0⟩ := kv
    simp only [List.map_cons, List.mem_cons] at h
    push_neg at h
    rw [lookupD, if_neg (fun he => h.1 he.symm)]
    exact ih h.2

theorem lookupD_setEntry_self (d : RDict) (k : String) (v : RawVal) :
    lookupD (setEntry d k v) k = some v := by
  induction d with
  | nil => simp [setEntry, lookupD]
  | cons kv rest ih =>
    obtain ⟨k0, v0⟩ := kv
    by_cases h : k0 = k
    · simp [setEntry, lookupD, h]
    · simp [setEntry, lookupD, h, ih]

theorem lookupD_setEntry_ne (d : RDict) (k : String) (v : RawVal) (k2 : String)
    (h : k ≠ k2) : lookupD (setEntry d k v) k2 = lookupD d k2 := by
  induction d with
  | nil => simp [setEntry, lookupD, h]
  | cons kv rest ih =>
    obtain ⟨k0, v0⟩ := kv
    by_cases h0 : k0 = k
    · subst h0
      simp [setEntry, lookupD, h]
    · simp [setEntry, lookupD, h0, ih]

theorem lookupD_dictUpdate (a : RDict) (b : RDict) (k : String)
    (hb : (b.map Prod.fst).Nodup) :
    lookupD (dictUpdate a b) k =
      match lookupD b k with
      | some v => some v
      | none => lookupD a k := by
  induction b generalizing a with
  | nil => simp [dictUpdate, lookupD]
  | cons kv rest ih =>
    obtain ⟨k0, v0⟩ := kv
    simp only [List.map_cons, List.nodup_cons] at hb
    have step : dictUpdate a ((k0, v0) :: rest) = dictUpdate (setEntry a k0 v0) rest := rfl
    rw [step, ih (setEntry a k0 v0) hb.2]
    by_cases h : k0 = k
    · subst h
      rw [lookupD_eq_none hb.1]
      simp [lookupD, lookupD_setEntry_self]
    · simp only [lookupD, if_neg h]
      rcases hr : lookupD rest k with _ | v
      · simp [lookupD_setEntry_ne a k0 v0 k h]
      · simp

/-! ### C1: the fold is left-associated, and merge is not associative -/

/-- Fragment `{env: {unset: [a]}}`. -/
def c1FragA : RDict := [("env", .dict [("unset", .list [.str "a"])])]

/-- Fragment `{env: {unset: [b]}}`. -/
def c1FragB : RDict := [("env", .dict [("unset", .list [.str "b"])])]

/-- Fragment `{env: {set: {X: "1"}}}`. -/
def c1FragC : RDict := [("env", .dict [("set", .dict [("X", .str "1")])])]

/-- C1 counterexample: for the raw fragments A = `{env:{unset:[a]}}`,
B = `{env:{unset:[b]}}`, C = `{env:{set:{X:"1"}}}`, folding left-to-right
equals `merge(merge(A,B),C)` but differs from `merge(A,merge(B,C))`: the fold
concatenates the two `unset` lists (B's `env` has no `set` key, so the generic
dict merge applies), while the right-associated merge first gives B's `env` a
`set` key, after which A's `unset` is fully replaced. The merge is therefore
not associative. -/
theorem c1_counterexample :
    foldFragments [c1FragA, c1FragB, c1FragC]
        = deepMerge (deepMerge c1FragA c1FragB) c1FragC
    ∧ deepMerge c1FragA (deepMerge c1FragB c1FragC)
        ≠ foldFragments [c1FragA, c1FragB, c1FragC] := by
  constructor
  · decide
  · decide

theorem mergeEntry_new (t : RDict) (k : String) (v : RawVal) (h : lookupD t k = none) :
    mergeEntry t k v = t ++ [(k, v)] := by
  cases v <;> simp [mergeEntry, h]

theorem deepMerge_disjoint :
    ∀ (s t : RDict), (s.map Prod.fst).Nodup →
      (∀ kk ∈ s.map Prod.fst, containsKey t kk = false) →
      deepMerge t s = t ++ s := by
  intro s
  induction s with
  | nil => intro t _ _; simp [deepMerge]
  | cons kv rest ih =>
    intro t hnd hdisj
    obtain ⟨k, v⟩ := kv
    simp only [List.map_cons, List.nodup_cons] at hnd
    have hk : containsKey t k = false := hdisj k (by simp)
    have hlk : lookupD t k = none := by
      unfold containsKey at hk
      rcases h : lookupD t k with _ | v0
      · rfl
      · rw [h] at hk; simp at hk
    have hstep : deepMerge t ((k, v) :: rest) = deepMerge (t ++ [(k, v)]) rest := by
      rw [deepMerge, mergeEntry_new t k v hlk]
    rw [hstep, ih (t ++ [(k, v)]) hnd.2]
    · simp
    · intro kk hkk
      have h1 : lookupD t kk = none := by
        have := hdisj kk (by simp [hkk])
        unfold containsKey at this
        rcases h : lookupD t kk with _ | v0
        · rfl
        · rw [h] at this; simp at this
      have h2 : kk ≠ k := fun he => hnd.1 (he ▸ hkk)
      unfold containsKey
      rw [lookupD_append, h1]
      simp [lookupD, Ne.symm h2]

/-- C1 amended: for fragments whose top-level keys are duplicate-free (always
true of loaded YAML mappings), the fold of `[A, B, C]` equals the
left-associated `merge(merge(A,B),C)`; by `c1_counterexample` it can differ
from `merge(A,merge(B,C))`, so only the left-associated reading of the claim
holds. -/
theorem c1_amended (A B C : RDict) (h : (A.map Prod.fst).Nodup) :
    foldFragments [A, B, C] = deepMerge (deepMerge A B) C := by
  have h0 : foldFragments [A, B, C] = deepMerge (deepMerge (deepMerge [] A) B) C := rfl
  rw [h0, deepMerge_disjoint A [] h (by intro kk _; rfl)]
  simp

/-- Witness for `c1_amended` at the concrete fragments of the counterexample. -/
theorem c1_amended_witness :
    foldFragments [c1FragA, c1FragB, c1FragC]
      = deepMerge (deepMerge c1FragA c1FragB) c1FragC :=
  c1_amended c1FragA c1FragB c1FragC (by decide)

/-! ### C2: destination-keyed merge of binds / overlays / file_ops -/

/-- Fragment `{mounts:{binds:[{dest:"/lib",type:"ro",src:"/lib"}]}}`. -/
def c2Frag1 : RDict :=
  [("mounts", .dict [("binds", .list
    [.dict [("dest", .str "/lib"), ("type", .str "ro"), ("src", .str "/lib")]])])]

/-- Fragment `{mounts:{binds:[{dest:"/lib",type:"rbind",src:"/usr/lib"}]}}`. -/
def c2Frag2 : RDict :=
  [("mounts", .dict [("binds", .list
    [.dict [("dest", .str "/lib"), ("type", .str "rbind"), ("src", .str "/usr/lib")]])])]

/-- C2: the destination-keyed merge replaces an incoming entry whose `dest`
matches an existing entry at the existing entry's original position (last
matching incoming entry winning), appends entries with a fresh `dest` in
order, and always appends entries without a `dest`
(`mergeByPath t s = mergeByPathSpec t s`); in particular, merging the two
`/lib` bind fragments of Scenario A yields exactly one `/lib` bind of type
`rbind` with source `/usr/lib`. -/
theorem c2_dest_keyed_merge :
    (∀ t s : List RawVal, mergeByPath t s = mergeByPathSpec t s)
    ∧ deepMerge c2Frag1 c2Frag2 =
        [("mounts", .dict [("binds", .list
          [.dict [("dest", .str "/lib"), ("type", .str "rbind"),
                  ("src", .str "/usr/lib")]])])] :=
  ⟨mergeByPath_eq_spec, by decide⟩

/-! ### C3: env merge -/

theorem envSetD_envInit (td : RDict) : envSetD (envInit td) = envSetD td := by
  unfold envInit
  by_cases h : containsKey td "set" = true
  · rw [if_pos h]
  · rw [if_neg h]
    unfold envSetD
    rw [lookupD_setEntry_self]
    unfold containsKey at h
    rcases hl : lookupD td "set" with _ | v
    · rfl
    · rw [hl] at h; simp at h

theorem lookupD_applyUnset_ne (sd d : RDict) (k : String) (h : k ≠ "unset") :
    lookupD (applyUnset sd d) k = lookupD d k := by
  unfold applyUnset
  rcases hu : lookupD sd "unset" with _ | u
  · rfl
  · exact lookupD_setEntry_ne d "unset" u k (fun he => h he.symm)

theorem lookupD_applyClear_ne (sd d : RDict) (k : String) (h : k ≠ "clear") :
    lookupD (applyClear sd d) k = lookupD d k := by
  unfold applyClear
  rcases hc : lookupD sd "clear" with _ | c
  · rfl
  · exact lookupD_setEntry_ne d "clear" c k (fun he => h he.symm)

theorem mergeEnvSpecial_set (td sd : RDict) :
    lookupD (mergeEnvSpecial td sd) "set"
      = some (.dict (dictUpdate (envSetD td) (envSetD sd))) := by
  unfold mergeEnvSpecial
  rw [lookupD_applyClear_ne _ _ _ (by decide), lookupD_applyUnset_ne _ _ _ (by decide)]
  rw [lookupD_setEntry_self, envSetD_envInit]

theorem mergeEnvSpecial_unset (td sd : RDict) (u : RawVal)
    (hu : lookupD sd "unset" = some u) :
    lookupD (mergeEnvSpecial td sd) "unset" = some u := by
  unfold mergeEnvSpecial
  rw [lookupD_applyClear_ne _ _ _ (by decide)]
  unfold applyUnset
  rw [hu, lookupD_setEntry_self]

theorem mergeEnvSpecial_clear (td sd : RDict) (c : RawVal)
    (hc : lookupD sd "clear" = some c) :
    lookupD (mergeEnvSpecial td sd) "clear" = some c := by
  unfold mergeEnvSpecial applyClear
  rw [hc, lookupD_setEntry_self]

/-- C3 amended: the claimed per-key last-write-wins union of `env.set` and the
full replacement of `env.unset`/`env.clear` hold exactly when the later
fragment's `env` mapping itself contains a `set` key (the guard of
`_deep_merge`'s `env` special case); when the later `env` has no `set` key the
generic rules apply instead, and `unset` lists are concatenated — see the
counterexample. -/
theorem c3_amended (td sd : RDict) (hset : containsKey sd "set" = true)
    (hnd : ((envSetD sd).map Prod.fst).Nodup) :
    deepMerge [("env", .dict td)] [("env", .dict sd)]
        = [("env", .dict (mergeEnvSpecial td sd))]
    ∧ lookupD (mergeEnvSpecial td sd) "set"
        = some (.dict (dictUpdate (envSetD td) (envSetD sd)))
    ∧ (∀ k, lookupD (dictUpdate (envSetD td) (envSetD sd)) k
        = match lookupD (envSetD sd) k with
          | some v => some v
          | none => lookupD (envSetD td) k)
    ∧ (∀ u, lookupD sd "unset" = some u →
        lookupD (mergeEnvSpecial td sd) "unset" = some u)
    ∧ (∀ c, lookupD sd "clear" = some c →
        lookupD (mergeEnvSpecial td sd) "clear" = some c) := by
  refine ⟨?_, mergeEnvSpecial_set td sd,
    fun k => lookupD_dictUpdate _ _ k hnd,
    fun u hu => mergeEnvSpecial_unset td sd u hu,
    fun c hc => mergeEnvSpecial_clear td sd c hc⟩
  simp [deepMerge, mergeEntry, lookupD, setEntry, hset,
    show ¬ ("env" : String) = "mounts" from by decide]

/-- Witness for `c3_amended`: both fragments define `env`, the later one with
`set`, `unset` and `clear`; its `unset` and `clear` replace the earlier ones,
its `set` is united with the earlier `set` last-write-wins. -/
theorem c3_amended_witness :
    deepMerge [("env", .dict [("set", .dict [("K", .str "1")]), ("unset", .list [.str "a"])])]
        [("env", .dict [("set", .dict [("K", .str "2")]), ("unset", .list [.str "b"]),
          ("clear", .bool true)])]
      = [("env", .dict (mergeEnvSpecial
          [("set", .dict [("K", .str "1")]), ("unset", .list [.str "a"])]
          [("set", .dict [("K", .str "2")]), ("unset", .list [.str "b"]),
            ("clear", .bool true)]))] :=
  (c3_amended _ _ (by decide) (by decide)).1

/-- C3 counterexample: two fragments that both define `env`, where the later
fragment's `env` has an `unset` list but no `set` key. The merged `env.unset`
is the deduplicating concatenation `[a, b]`, not the later fragment's `[b]`:
the later `env.unset` does not fully replace the earlier one as claimed. -/
theorem c3_counterexample :
    deepMerge [("env", .dict [("set", .dict [("K", .str "1")]), ("unset", .list [.str "a"])])]
        [("env", .dict [("unset", .list [.str "b"])])]
      = [("env", .dict [("set", .dict [("K", .str "1")]),
          ("unset", .list [.str "a", .str "b"])])]
    ∧ (RawVal.list [.str "a", .str "b"]) ≠ (RawVal.list [.str "b"]) := by
  constructor
  · decide
  · decide

/-! ### Typed configuration (from `src/models.py`) and the argument translator
(`BwrapRunner._build_args` in `src/runner.py`) -/

/-- `GeneralConfig` of `models.py`. -/
structure GeneralConfig where
  args_fd : Option Int := none
  argv0 : Option String := none
  level_prefix : Bool := false

/-- `NamespaceConfig` of `models.py` (the `Literal` enums as strings). -/
structure NamespaceConfig where
  unshare : List String := []
  share : List String := []
  userns : Option Int := none
  userns2 : Option Int := none
  pidns : Option Int := none
  disable_userns : Bool := false
  assert_userns_disabled : Bool := false
  hostname : Option String := none

/-- `UidMap` of `models.py`. -/
structure UidMap where
  host : Int
  container : Int

/-- `SecurityConfig` of `models.py`. -/
structure SecurityConfig where
  seccomp : List String := []
  add_seccomp_fd : List Int := []
  caps_add : List String := []
  caps_drop : List String := []
  exec_label : Option String := none
  file_label : Option String := none
  block_fd : Option Int := none
  userns_block_fd : Option Int := none
  info_fd : Option Int := none
  json_status_fd : Option Int := none
  new_session : Bool := false
  die_with_parent : Bool := false
  as_pid_1 : Bool := false

/-- `OverlayConfig` of `models.py` (`type` one of `overlay`, `tmp-overlay`,
`ro-overlay`). -/
structure OverlayConfig where
  type : String
  sources : List String := []
  rwsrc : Option String := none
  workdir : Option String := none
  dest : String

/-- `FileOperation` of `models.py`; `src` is `Optional[Union[int, str]]`. -/
structure FileOperation where
  type : String
  src : Option (Int ⊕ String) := none
  dest : String
  mode : Option String := none

/-- `MonitorConfig` of `models.py`. -/
structure MonitorConfig where
  lock_files : List String := []
  sync_fd : Option Int := none

/-- `EnvConfig` of `models.py`; `set` is an insertion-ordered dict. -/
structure EnvConfig where
  set : List (String × String) := []
  unset : List String := []
  clear : Bool := false

/-- A raw bind record as `_build_args` reads it from `mounts["binds"]`:
`bind.get("type", "")`, `bind["src"]`, `bind["dest"]` (the validated shapes
that reach argument building carry the `src`/`dest` keys they use). -/
structure BindMount where
  type : String := ""
  src : String := ""
  dest : String := ""

/-- `BwrapConfig` of `models.py`, with `mounts.get("binds"/"dev"/"tmpfs", [])`
and `id_mappings.get("uid"/"gid", [])` flattened into fields. -/
structure BwrapConfig where
  general : GeneralConfig := {}
  namespaces : NamespaceConfig := {}
  binds : List BindMount := []
  devMounts : List String := []
  tmpfsMounts : List String := []
  overlays : List OverlayConfig := []
  file_ops : List FileOperation := []
  uidMaps : List UidMap := []
  gidMaps : List UidMap := []
  env : EnvConfig := {}
  security : SecurityConfig := {}
  monitor : MonitorConfig := {}
  perms : Option String := none
  size : Option Int := none
  chdir : Option String := none

/-- `args.extend([flag, s])` guarded by Python truthiness of an optional
string (`None` and `""` are falsy). -/
def optStrArgs (flag : String) (v : Option String) : List String :=
  match v with
  | some s => if s = "" then [] else [flag, s]
  | none => []

/-- `args.extend([flag, str(n)])` guarded by `n is not None`. -/
def optIntArgs (flag : String) (v : Option Int) : List String :=
  match v with
  | some n => [flag, toString n]
  | none => []

/-- General options section of `_build_args`. -/
def generalArgs (g : GeneralConfig) : List String :=
  optIntArgs "--args" g.args_fd
  ++ optStrArgs "--argv0" g.argv0
  ++ (if GeneralConfig.level_prefix g then ["--level-prefix"] else [])

/-- The flag emitted for one element of `namespaces.unshare`. -/
def unshareFlag (s : String) : String :=
  if s = "all" then "--unshare-all" else "--unshare-" ++ s

/-- Namespace options section of `_build_args`. -/
def namespaceArgs (ns : NamespaceConfig) : List String :=
  ns.unshare.map unshareFlag
  ++ ns.share.map (fun s => "--share-" ++ s)
  ++ optIntArgs "--userns" ns.userns
  ++ optIntArgs "--userns2" ns.userns2
  ++ optIntArgs "--pidns" ns.pidns
  ++ (if ns.disable_userns then ["--disable-userns"] else [])
  ++ (if ns.assert_userns_disabled then ["--assert-userns-disabled"] else [])
  ++ optStrArgs "--hostname" ns.hostname

/-- `--uid` flags: one per uid mapping, host value only, in input order. -/
def uidArgs (l : List UidMap) : List String :=
  l.flatMap (fun m => ["--uid", toString m.host])

/-- `--gid` flags: one per gid mapping, host value only, in input order. -/
def gidArgs (l : List UidMap) : List String :=
  l.flatMap (fun m => ["--gid", toString m.host])

/-- Working-directory and environment section of `_build_args`. -/
def envArgs (chdir : Option String) (e : EnvConfig) : List String :=
  optStrArgs "--chdir" chdir
  ++ (if e.clear then ["--clearenv"] else [])
  ++ e.set.flatMap (fun kv => ["--setenv", kv.1, kv.2])
  ++ e.unset.flatMap (fun v => ["--unsetenv", v])

/-- Monitoring section of `_build_args`. -/
def monitorArgs (m : MonitorConfig) : List String :=
  m.lock_files.flatMap (fun f => ["--lock-file", f])
  ++ optIntArgs "--sync-fd" m.sync_fd

/-- The type-specific flag table for a bind record (`else` falls back to the
default `--bind`). -/
def bindTypeArgs (b : BindMount) : List String :=
  if b.type = "ro" then ["--ro-bind", b.src, b.dest]
  else if b.type = "dev" then ["--dev-bind", b.src, b.dest]
  else if b.type = "proc" then ["--proc", b.dest]
  else if b.type = "rbind" then ["--rbind", b.src, b.dest]
  else if b.type = "tmpfs" then ["--tmpfs", b.dest]
  else if b.type = "try" then ["--bind-try", b.src, b.dest]
  else if b.type = "dev-try" then ["--dev-bind-try", b.src, b.dest]
  else if b.type = "ro-try" then ["--ro-bind-try", b.src, b.dest]
  else if b.type = "remount-ro" then ["--remount-ro", b.dest]
  else if b.type = "mqueue" then ["--mqueue", b.dest]
  else ["--bind", b.src, b.dest]

/-- `--size` context flag, guarded by Python truthiness of `size` (0 falsy). -/
def sizeArgs (size : Option Int) : List String :=
  match size with
  | some n => if n = 0 then [] else ["--size", toString n]
  | none => []

/-- Bind mounts section: pending `--perms`/`--size` context flags before each
mount flag (`--size` only before a `tmpfs`-typed bind). -/
def bindsArgs (perms : Option String) (size : Option Int) (binds : List BindMount) :
    List String :=
  binds.flatMap (fun b =>
    optStrArgs "--perms" perms
    ++ (if b.type = "tmpfs" then sizeArgs size else [])
    ++ bindTypeArgs b)

/-- `--dev` mounts section. -/
def devArgs (dev : List String) : List String :=
  dev.flatMap (fun d => ["--dev", d])

/-- Plain tmpfs mounts section, each preceded by pending `--perms`/`--size`. -/
def tmpfsArgs (perms : Option String) (size : Option Int) (tmpfs : List String) :
    List String :=
  tmpfs.flatMap (fun t =>
    optStrArgs "--perms" perms ++ sizeArgs size ++ ["--tmpfs", t])

/-- Overlay section: every `--overlay-src` first, then the type-specific
consuming flag. The `rwsrc`/`workdir` of a validated plain overlay are always
present; the impossible `none` (on which Python would hand `None` to
`subprocess`) is rendered as `""`. -/
def overlayArgs (l : List OverlayConfig) : List String :=
  l.flatMap (fun o =>
    o.sources.flatMap (fun s => ["--overlay-src", s])
    ++ (if o.type = "overlay" then ["--overlay", o.rwsrc.getD "", o.workdir.getD "", o.dest]
        else if o.type = "tmp-overlay" then ["--tmp-overlay", o.dest]
        else if o.type = "ro-overlay" then ["--ro-overlay", o.dest]
        else []))

/-- `str(op.src)` of a file operation source (`str(None) = "None"`). -/
def srcStr : Option (Int ⊕ String) → String
  | none => "None"
  | some (Sum.inl n) => toString n
  | some (Sum.inr s) => s

/-- The per-operation `--perms` flag: the explicit mode wins (when truthy),
otherwise the global `perms` applies when the mode is `None`. -/
def fileOpPerms (perms : Option String) (op : FileOperation) : List String :=
  match op.mode with
  | none => optStrArgs "--perms" perms
  | some m => if m = "" then [] else ["--perms", m]

/-- The type-specific flag of a file operation (a `chmod` without a mode makes
Python hand `None` to `subprocess`; rendered as `""`). -/
def fileOpTypeArgs (op : FileOperation) : List String :=
  if op.type = "file" then ["--file", srcStr op.src, op.dest]
  else if op.type = "bind-data" then ["--bind-data", srcStr op.src, op.dest]
  else if op.type = "ro-bind-data" then ["--ro-bind-data", srcStr op.src, op.dest]
  else if op.type = "symlink" then ["--symlink", srcStr op.src, op.dest]
  else if op.type = "chmod" then ["--chmod", op.mode.getD "", op.dest]
  else if op.type = "dir" then ["--dir", op.dest]
  else []

/-- File operations section of `_build_args`. -/
def fileOpArgs (perms : Option String) (ops : List FileOperation) : List String :=
  ops.flatMap (fun op => fileOpPerms perms op ++ fileOpTypeArgs op)

/-- Security options section of `_build_args`. -/
def securityArgs (s : SecurityConfig) : List String :=
  s.seccomp.flatMap (fun p => ["--seccomp", p])
  ++ s.add_seccomp_fd.flatMap (fun fd => ["--add-seccomp-fd", toString fd])
  ++ optStrArgs "--exec-label" s.exec_label
  ++ optStrArgs "--file-label" s.file_label
  ++ optIntArgs "--block-fd" s.block_fd
  ++ optIntArgs "--userns-block-fd" s.userns_block_fd
  ++ optIntArgs "--info-fd" s.info_fd
  ++ optIntArgs "--json-status-fd" s.json_status_fd
  ++ (if s.new_session then ["--new-session"] else [])
  ++ (if s.die_with_parent then ["--die-with-parent"] else [])
  ++ (if s.as_pid_1 then ["--as-pid-1"] else [])
  ++ s.caps_add.flatMap (fun c => ["--cap-add", c])
  ++ s.caps_drop.flatMap (fun c => ["--cap-drop", c])

/-- `BwrapRunner._build_args`: the full translated token sequence, sections in
the source's fixed order, ending with `args.extend(self.command)`. -/
def buildArgs (cfg : BwrapConfig) (command : List String) : List String :=
  ["bwrap"]
  ++ generalArgs cfg.general
  ++ namespaceArgs cfg.namespaces
  ++ uidArgs cfg.uidMaps
  ++ gidArgs cfg.gidMaps
  ++ envArgs cfg.chdir cfg.env
  ++ monitorArgs cfg.monitor
  ++ bindsArgs cfg.perms cfg.size cfg.binds
  ++ devArgs cfg.devMounts
  ++ tmpfsArgs cfg.perms cfg.size cfg.tmpfsMounts
  ++ overlayArgs cfg.overlays
  ++ fileOpArgs cfg.perms cfg.file_ops
  ++ securityArgs cfg.security
  ++ command

/-! ### C5: command tokens pass-through -/

/-- A minimal validated configuration: every field defaulted. -/
def c5Config : BwrapConfig := {}

/-- C5 counterexample: the translated sequence for the empty configuration and
command `["x"]` is `["bwrap", "x"]` — the user command follows the flag
sections directly and no literal `--` separator token is ever emitted. -/
theorem c5_counterexample :
    buildArgs c5Config ["x"] = ["bwrap", "x"] ∧ "--" ∉ buildArgs c5Config ["x"] := by
  constructor
  · decide
  · decide

/-- C5 amended: for every validated configuration and command token list, the
translated sequence is the configuration-determined prefix followed by the
user command tokens exactly as given, in order, with no reinterpretation or
escaping — but with no separator token in between. -/
theorem c5_amended (cfg : BwrapConfig) (command : List String) :
    buildArgs cfg command = buildArgs cfg [] ++ command := by
  simp [buildArgs]

/-! ### C4: the `all` sentinel in `namespaces.unshare` -/

/-- A validated configuration whose `unshare` list is `["all", "net"]` (both
are legal `Literal` members and the validator imposes no exclusivity). -/
def c4Config : BwrapConfig := { namespaces := { unshare := ["all", "net"] } }

/-- C4 counterexample: with `unshare = ["all", "net"]` the translation emits
`--unshare-all` and `--unshare-net` side by side, so an individual
`--unshare-<kind>` flag can accompany `--unshare-all`. -/
theorem c4_counterexample :
    "--unshare-all" ∈ buildArgs c4Config [] ∧ "--unshare-net" ∈ buildArgs c4Config [] := by
  constructor
  · decide
  · decide

theorem unshareFlag_eq (s : String) : unshareFlag s = "--unshare-" ++ s := by
  unfold unshareFlag
  by_cases h : s = "all"
  · subst h
    decide
  · rw [if_neg h]

theorem string_append_left_inj (a : String) : Function.Injective (fun s => a ++ s) := by
  intro x y h
  have h2 : a ++ x = a ++ y := h
  have hd : (a ++ x).data = (a ++ y).data := by rw [h2]
  rw [String.data_append, String.data_append] at hd
  have h3 := List.append_cancel_left hd
  cases x
  cases y
  exact congrArg String.mk h3

theorem unshareFlag_inj : Function.Injective unshareFlag := by
  intro x y h
  rw [unshareFlag_eq, unshareFlag_eq] at h
  exact string_append_left_inj "--unshare-" h

/-- C4 amended: each element of `namespaces.unshare` is translated
independently — `all` to `--unshare-all`, any other kind to its own
`--unshare-<kind>` flag, which is emitted even alongside `--unshare-all`.
Exactly one `--unshare-all` appears when `all` occurs exactly once, but the
sentinel is not exclusive. -/
theorem c4_amended (cfg : BwrapConfig)
    (h : cfg.namespaces.unshare.count "all" = 1) :
    (cfg.namespaces.unshare.map unshareFlag).count "--unshare-all" = 1
    ∧ namespaceArgs cfg.namespaces =
        cfg.namespaces.unshare.map unshareFlag
          ++ (namespaceArgs cfg.namespaces).drop cfg.namespaces.unshare.length
    ∧ (∀ s ∈ cfg.namespaces.unshare, s ≠ "all" →
        "--unshare-" ++ s ∈ cfg.namespaces.unshare.map unshareFlag) := by
  refine ⟨?_, ?_, ?_⟩
  · have hall : unshareFlag "all" = "--unshare-all" := by decide
    rw [← hall, List.count_map_of_injective _ unshareFlag unshareFlag_inj, h]
  · simp only [namespaceArgs, List.append_assoc]
    rw [List.drop_left' (by simp)]
  · intro s hs _
    rw [← unshareFlag_eq s]
    exact List.mem_map_of_mem unshareFlag hs

/-- Witness for `c4_amended` at the counterexample configuration. -/
theorem c4_amended_witness :
    (c4Config.namespaces.unshare.map unshareFlag).count "--unshare-all" = 1
    ∧ namespaceArgs c4Config.namespaces =
        c4Config.namespaces.unshare.map unshareFlag
          ++ (namespaceArgs c4Config.namespaces).drop c4Config.namespaces.unshare.length
    ∧ (∀ s ∈ c4Config.namespaces.unshare, s ≠ "all" →
        "--unshare-" ++ s ∈ c4Config.namespaces.unshare.map unshareFlag) :=
  c4_amended c4Config (by decide)

/-! ### C10: id-mapping container values never reach the token sequence -/

theorem uidArgs_host_eq : ∀ (l1 l2 : List UidMap),
    l1.map UidMap.host = l2.map UidMap.host → uidArgs l1 = uidArgs l2 := by
  intro l1
  induction l1 with
  | nil =>
    intro l2 h
    cases l2 with
    | nil => rfl
    | cons m rest => simp at h
  | cons m rest ih =>
    intro l2 h
    cases l2 with
    | nil => simp at h
    | cons m2 rest2 =>
      simp only [List.map_cons, List.cons.injEq] at h
      have hstep : uidArgs (m :: rest) = ["--uid", toString m.host] ++ uidArgs rest := rfl
      have hstep2 : uidArgs (m2 :: rest2) = ["--uid", toString m2.host] ++ uidArgs rest2 := rfl
      rw [hstep, hstep2, h.1, ih rest2 h.2]

theorem gidArgs_host_eq : ∀ (l1 l2 : List UidMap),
    l1.map UidMap.host = l2.map UidMap.host → gidArgs l1 = gidArgs l2 := by
  intro l1
  induction l1 with
  | nil =>
    intro l2 h
    cases l2 with
    | nil => rfl
    | cons m rest => simp at h
  | cons m rest ih =>
    intro l2 h
    cases l2 with
    | nil => simp at h
    | cons m2 rest2 =>
      simp only [List.map_cons, List.cons.injEq] at h
      have hstep : gidArgs (m :: rest) = ["--gid", toString m.host] ++ gidArgs rest := rfl
      have hstep2 : gidArgs (m2 :: rest2) = ["--gid", toString m2.host] ++ gidArgs rest2 := rfl
      rw [hstep, hstep2, h.1, ih rest2 h.2]

theorem uidArgs_by_host (l : List UidMap) :
    uidArgs l = (l.map UidMap.host).flatMap (fun h => ["--uid", toString h]) := by
  induction l with
  | nil => rfl
  | cons m rest ih =>
    have hstep : uidArgs (m :: rest) = ["--uid", toString m.host] ++ uidArgs rest := rfl
    have hstep2 : ((m :: rest).map UidMap.host).flatMap (fun h => ["--uid", toString h])
        = ["--uid", toString m.host]
          ++ (rest.map UidMap.host).flatMap (fun h => ["--uid", toString h]) := rfl
    rw [hstep, hstep2, ih]

theorem gidArgs_by_host (l : List UidMap) :
    gidArgs l = (l.map UidMap.host).flatMap (fun h => ["--gid", toString h]) := by
  induction l with
  | nil => rfl
  | cons m rest ih =>
    have hstep : gidArgs (m :: rest) = ["--gid", toString m.host] ++ gidArgs rest := rfl
    have hstep2 : ((m :: rest).map UidMap.host).flatMap (fun h => ["--gid", toString h])
        = ["--gid", toString m.host]
          ++ (rest.map UidMap.host).flatMap (fun h => ["--gid", toString h]) := rfl
    rw [hstep, hstep2, ih]

/-- C10: the translated token sequence never depends on the `container` field
of any uid/gid mapping — configurations differing only in container values
translate identically, since each mapping contributes only `--uid`/`--gid`
with its host value, in input order. -/
theorem c10_container_noninterference (cfg : BwrapConfig) (command : List String)
    (u g : List UidMap)
    (hu : u.map UidMap.host = cfg.uidMaps.map UidMap.host)
    (hg : g.map UidMap.host = cfg.gidMaps.map UidMap.host) :
    buildArgs { cfg with uidMaps := u, gidMaps := g } command = buildArgs cfg command
    ∧ uidArgs cfg.uidMaps = (cfg.uidMaps.map UidMap.host).flatMap (fun h => ["--uid", toString h])
    ∧ gidArgs cfg.gidMaps = (cfg.gidMaps.map UidMap.host).flatMap (fun h => ["--gid", toString h]) := by
  refine ⟨?_, uidArgs_by_host _, gidArgs_by_host _⟩
  simp only [buildArgs]
  rw [uidArgs_host_eq u cfg.uidMaps hu, gidArgs_host_eq g cfg.gidMaps hg]

/-- A configuration with one uid mapping `1000 → 0` and one gid mapping
`100 → 1`. -/
def c10Config : BwrapConfig := { uidMaps := [⟨1000, 0⟩], gidMaps := [⟨100, 1⟩] }

/-- Witness for `c10_container_noninterference`: changing the container halves
of the mappings to `42` and `7` leaves the token sequence unchanged. -/
theorem c10_container_noninterference_witness :
    buildArgs { c10Config with uidMaps := [⟨1000, 42⟩], gidMaps := [⟨100, 7⟩] } ["id"]
        = buildArgs c10Config ["id"]
    ∧ uidArgs c10Config.uidMaps
        = (c10Config.uidMaps.map UidMap.host).flatMap (fun h => ["--uid", toString h])
    ∧ gidArgs c10Config.gidMaps
        = (c10Config.gidMaps.map UidMap.host).flatMap (fun h => ["--gid", toString h]) :=
  c10_container_noninterference c10Config ["id"] [⟨1000, 42⟩] [⟨100, 7⟩] rfl rfl

/-! ### Validation (`BwrapConfig.validate_mounts` in `src/models.py`) -/

/-- A raw bind record as the validator reads it: `bind.get("type")` /
`bind.get("src")` (absent keys give `None`). -/
structure RawBind where
  type : Option String := none
  src : Option String := none
  dest : String := ""
deriving DecidableEq

/-- Python truthiness of an optional string (`None` and `""` are falsy). -/
def pyTruthyStr : Option String → Bool
  | none => false
  | some s => !(s == "")

/-- `"try" in s`: substring membership. -/
def containsTry (s : String) : Bool :=
  containsSubCL s.data "try".data

/-- The two per-bind source rules of `validate_mounts`: a `tmpfs` bind must
not carry a (truthy) `src`, and a type whose name contains `"try"` must. -/
def bindOk (b : RawBind) : Bool :=
  !((b.type == some "tmpfs") && pyTruthyStr b.src)
  && !(containsTry (b.type.getD "") && !pyTruthyStr b.src)

/-- The per-overlay rules of `validate_mounts`: a plain `overlay` needs truthy
`rwsrc` and `workdir`; a `ro-overlay` needs at least two sources. -/
def validOverlay (o : OverlayConfig) : Bool :=
  !((o.type == "overlay") && (!pyTruthyStr o.rwsrc || !pyTruthyStr o.workdir))
  && !((o.type == "ro-overlay") && decide (o.sources.length < 2))

/-- `validate_mounts`: it raises on the first violated rule; acceptance means
every bind passes the source rules, the `disable_userns` cross-field rule
holds, and every overlay passes the overlay rules. -/
def validateMounts (binds : List RawBind) (ns : NamespaceConfig)
    (overlays : List OverlayConfig) : Bool :=
  binds.all bindOk
  && !(ns.disable_userns && !(ns.unshare.contains "user"))
  && overlays.all validOverlay

/-- The bind `type` values allowed by the `BindMount` schema of `models.py`. -/
def validBindTypes : List String :=
  ["ro", "dev", "proc", "rbind", "tmpfs", "try", "dev-try", "ro-try", "remount-ro", "mqueue"]

theorem bindOk_iff (b : RawBind)
    (hty : b.type = none ∨ b.type ∈ validBindTypes.map some) :
    bindOk b = true ↔
      (¬(b.type = some "tmpfs" ∧ pyTruthyStr b.src = true)
        ∧ ¬((b.type = some "try" ∨ b.type = some "dev-try" ∨ b.type = some "ro-try")
            ∧ pyTruthyStr b.src = false)) := by
  rcases hty with h | h
  · cases hsrc : pyTruthyStr b.src <;> simp only [bindOk, h, hsrc] <;> decide
  · simp only [validBindTypes, List.map_cons, List.map_nil, List.mem_cons,
      List.not_mem_nil, or_false] at h
    cases hsrc : pyTruthyStr b.src <;>
      (rcases h with h | h | h | h | h | h | h | h | h | h <;>
        simp only [bindOk, h, hsrc] <;> decide)

/-- C6: with every bind typed by the schema (absent or one of the ten
`BindMount` literals), the bind-source check fails exactly when some bind is a
`tmpfs` with a truthy source or a `try`-suffixed type (`try`, `dev-try`,
`ro-try`) without one; with neither violation it passes. -/
theorem c6_bind_src_check (binds : List RawBind)
    (hty : ∀ b ∈ binds, b.type = none ∨ b.type ∈ validBindTypes.map some) :
    binds.all bindOk = true ↔
      ∀ b ∈ binds,
        ¬(b.type = some "tmpfs" ∧ pyTruthyStr b.src = true)
        ∧ ¬((b.type = some "try" ∨ b.type = some "dev-try" ∨ b.type = some "ro-try")
            ∧ pyTruthyStr b.src = false) := by
  rw [List.all_eq_true]
  constructor
  · intro hall b hb
    exact (bindOk_iff b (hty b hb)).mp (hall b hb)
  · intro hall b hb
    exact (bindOk_iff b (hty b hb)).mpr (hall b hb)

/-- Binds exercising the check: a sourceless `tmpfs`, a sourced `ro-try`, an
untyped entry. -/
def c6Binds : List RawBind :=
  [⟨some "tmpfs", none, "/tmp"⟩, ⟨some "ro-try", some "/opt", "/opt"⟩, ⟨none, some "/a", "/b"⟩]

/-- Witness for `c6_bind_src_check` on a concrete schema-typed binds list
(which passes the check, having neither violation). -/
theorem c6_bind_src_check_witness :
    (c6Binds.all bindOk = true ↔
      ∀ b ∈ c6Binds,
        ¬(b.type = some "tmpfs" ∧ pyTruthyStr b.src = true)
        ∧ ¬((b.type = some "try" ∨ b.type = some "dev-try" ∨ b.type = some "ro-try")
            ∧ pyTruthyStr b.src = false))
    ∧ c6Binds.all bindOk = true :=
  ⟨c6_bind_src_check c6Binds (by decide), by decide⟩

/-- C7: validation rejects every `overlay` record with a missing `rwsrc` or
`workdir`, rejects every `ro-overlay` with fewer than two sources, and the
overlay rules accept a `ro-overlay` with exactly two sources. -/
theorem c7_overlay_validation :
    (∀ (binds : List RawBind) (ns : NamespaceConfig) (l : List OverlayConfig),
      ∀ o ∈ l, o.type = "overlay" → (o.rwsrc = none ∨ o.workdir = none) →
        validateMounts binds ns l = false)
    ∧ (∀ (binds : List RawBind) (ns : NamespaceConfig) (l : List OverlayConfig),
      ∀ o ∈ l, o.type = "ro-overlay" → o.sources.length < 2 →
        validateMounts binds ns l = false)
    ∧ (∀ o : OverlayConfig, o.type = "ro-overlay" → o.sources.length = 2 →
        validOverlay o = true) := by
  refine ⟨?_, ?_, ?_⟩
  · intro binds ns l o ho htype hmiss
    have hbad : validOverlay o = false := by
      rcases hmiss with hm | hm <;> simp [validOverlay, htype, hm, pyTruthyStr]
    have hall : l.all validOverlay = false := by
      rw [Bool.eq_false_iff]
      intro hc
      have := List.all_eq_true.mp hc o ho
      rw [hbad] at this
      cases this
    simp [validateMounts, hall]
  · intro binds ns l o ho htype hlen
    have hbad : validOverlay o = false := by
      simp [validOverlay, htype, hlen]
    have hall : l.all validOverlay = false := by
      rw [Bool.eq_false_iff]
      intro hc
      have := List.all_eq_true.mp hc o ho
      rw [hbad] at this
      cases this
    simp [validateMounts, hall]
  · intro o htype hlen
    simp [validOverlay, htype, hlen]

/-- Witness for `c7_overlay_validation`: the Scenario C overlay
`{type:"overlay", sources:["/a"], dest:"/m"}` (no `rwsrc`/`workdir`) makes
validation fail; a one-source `ro-overlay` fails; a two-source `ro-overlay`
passes the overlay rules. -/
theorem c7_overlay_validation_witness :
    validateMounts [] {} [⟨"overlay", ["/a"], none, none, "/m"⟩] = false
    ∧ validateMounts [] {} [⟨"ro-overlay", ["/a"], none, none, "/m"⟩] = false
    ∧ validOverlay ⟨"ro-overlay", ["/a", "/b"], none, none, "/m"⟩ = true :=
  ⟨c7_overlay_validation.1 [] {} _ ⟨"overlay", ["/a"], none, none, "/m"⟩
      (List.mem_singleton_self _) rfl (Or.inl rfl),
    c7_overlay_validation.2.1 [] {} _ ⟨"ro-overlay", ["/a"], none, none, "/m"⟩
      (List.mem_singleton_self _) rfl (by decide),
    c7_overlay_validation.2.2 ⟨"ro-overlay", ["/a", "/b"], none, none, "/m"⟩ rfl rfl⟩

/-! ### C8: environment-variable substitution (`EnvVarLoader` in
`src/runner.py`) -/

/-- The `$NAME` character class `[a-zA-Z0-9_]` of `ENV_VAR_PATTERN`. -/
def isNameChar (c : Char) : Bool :=
  (decide (97 ≤ c.toNat) && decide (c.toNat ≤ 122))
  || (decide (65 ≤ c.toNat) && decide (c.toNat ≤ 90))
  || (decide (48 ≤ c.toNat) && decide (c.toNat ≤ 57))
  || c == '_'

/-- The `${NAME}` character class `[^}^{]` of `ENV_VAR_PATTERN` (everything
but `}`, `^` and `{`). -/
def isBraceNameChar (c : Char) : Bool :=
  !(c == '}') && !(c == '{') && !(c == '^')

/-- `ENV_VAR_PATTERN.sub(replace_var, value)` as a left-to-right scan over the
characters, one unit of fuel per consumed character (the input's length is
always enough). At a `$`: a brace token `${name}` with a nonempty name over
`[^}^{]` is replaced by the environment value (empty string when unset);
otherwise a maximal nonempty run of `[a-zA-Z0-9_]` forms a `$NAME` token;
otherwise the `$` is literal and scanning resumes at the next character. -/
def scanEnv (env : String → Option String) : Nat → List Char → List Char
  | 0, cs => cs
  | _ + 1, [] => []
  | fuel + 1, c :: rest =>
    if c = '$' then
      match rest with
      | [] => c :: scanEnv env fuel []
      | d :: rest2 =>
        if d = '{' then
          if (rest2.takeWhile isBraceNameChar).isEmpty then c :: scanEnv env fuel rest
          else
            match rest2.drop (rest2.takeWhile isBraceNameChar).length with
            | '}' :: tail =>
              ((env (String.mk (rest2.takeWhile isBraceNameChar))).getD "").data
                ++ scanEnv env fuel tail
            | _ => c :: scanEnv env fuel rest
        else
          if (rest.takeWhile isNameChar).isEmpty then c :: scanEnv env fuel rest
          else
            ((env (String.mk (rest.takeWhile isNameChar))).getD "").data
              ++ scanEnv env fuel (rest.drop (rest.takeWhile isNameChar).length)
    else c :: scanEnv env fuel rest

/-- `EnvVarLoader._replace_env_vars(value)`, with the process environment
injected as a lookup function (`os.environ.get(name)`). -/
def replaceEnvVars (env : String → Option String) (s : String) : String :=
  String.mk (scanEnv env s.data.length s.data)
theorem scanEnv_nil (env : String → Option String) : ∀ f, scanEnv env f [] = [] := by
  intro f
  cases f <;> rfl

theorem scanEnv_brace_empty (env : String → Option String) (f : Nat) (rest2 : List Char)
    (hemp : (rest2.takeWhile isBraceNameChar).isEmpty = true) :
    scanEnv env (f + 1) ('$' :: '{' :: rest2) = '$' :: scanEnv env f ('{' :: rest2) := by
  simp [scanEnv, hemp]

theorem scanEnv_brace_hit (env : String → Option String) (f : Nat) (rest2 tail : List Char)
    (hemp : (rest2.takeWhile isBraceNameChar).isEmpty = false)
    (hdr : rest2.drop (rest2.takeWhile isBraceNameChar).length = '}' :: tail) :
    scanEnv env (f + 1) ('$' :: '{' :: rest2)
      = ((env (String.mk (rest2.takeWhile isBraceNameChar))).getD "").data
          ++ scanEnv env f tail := by
  simp [scanEnv, hemp, hdr]

theorem scanEnv_brace_nohit_nil (env : String → Option String) (f : Nat) (rest2 : List Char)
    (hemp : (rest2.takeWhile isBraceNameChar).isEmpty = false)
    (hdr : rest2.drop (rest2.takeWhile isBraceNameChar).length = []) :
    scanEnv env (f + 1) ('$' :: '{' :: rest2) = '$' :: scanEnv env f ('{' :: rest2) := by
  simp [scanEnv, hemp, hdr]

theorem scanEnv_brace_nohit_cons (env : String → Option String) (f : Nat) (rest2 tail : List Char)
    (e : Char) (hemp : (rest2.takeWhile isBraceNameChar).isEmpty = false)
    (hdr : rest2.drop (rest2.takeWhile isBraceNameChar).length = e :: tail)
    (he : e ≠ '}') :
    scanEnv env (f + 1) ('$' :: '{' :: rest2) = '$' :: scanEnv env f ('{' :: rest2) := by
  simp only [scanEnv, hemp, hdr, if_true, Bool.false_eq_true, if_false]
  split
  · simp_all
  · rfl

theorem scanEnv_dollar_nil (env : String → Option String) (f : Nat) :
    scanEnv env (f + 1) ['$'] = ['$'] := by
  simp [scanEnv, scanEnv_nil]

theorem scanEnv_name_hit (env : String → Option String) (f : Nat) (d : Char) (rest2 : List Char)
    (hd : d ≠ '{')
    (hemp : ((d :: rest2).takeWhile isNameChar).isEmpty = false) :
    scanEnv env (f + 1) ('$' :: d :: rest2)
      = ((env (String.mk ((d :: rest2).takeWhile isNameChar))).getD "").data
          ++ scanEnv env f ((d :: rest2).drop ((d :: rest2).takeWhile isNameChar).length) := by
  simp only [scanEnv]
  rw [if_true, if_neg hd, if_neg (by rw [hemp]; exact Bool.false_ne_true)]

theorem scanEnv_name_miss (env : String → Option String) (f : Nat) (d : Char) (rest2 : List Char)
    (hd : d ≠ '{')
    (hemp : ((d :: rest2).takeWhile isNameChar).isEmpty = true) :
    scanEnv env (f + 1) ('$' :: d :: rest2) = '$' :: scanEnv env f (d :: rest2) := by
  simp only [scanEnv]
  rw [if_true, if_neg hd, if_pos hemp]

theorem scanEnv_lit (env : String → Option String) (f : Nat) (c : Char) (rest : List Char)
    (hc : c ≠ '$') :
    scanEnv env (f + 1) (c :: rest) = c :: scanEnv env f rest := by
  simp only [scanEnv]
  rw [if_neg hc]

theorem scanEnv_fuel (env : String → Option String) :
    ∀ (n : Nat) (cs : List Char) (f g : Nat), cs.length ≤ n → cs.length ≤ f → cs.length ≤ g →
      scanEnv env f cs = scanEnv env g cs := by
  intro n
  induction n with
  | zero =>
    intro cs f g hn _ _
    have hcs : cs = [] := by
      cases cs with
      | nil => rfl
      | cons c r => simp at hn
    subst hcs
    rw [scanEnv_nil, scanEnv_nil]
  | succ n ih =>
    intro cs f g hn hf hg
    cases cs with
    | nil => rw [scanEnv_nil, scanEnv_nil]
    | cons c rest =>
      simp only [List.length_cons] at hn hf hg
      obtain ⟨f1, rfl⟩ : ∃ f1, f = f1 + 1 := ⟨f - 1, by omega⟩
      obtain ⟨g1, rfl⟩ : ∃ g1, g = g1 + 1 := ⟨g - 1, by omega⟩
      by_cases hc : c = '$'
      · subst hc
        cases rest with
        | nil => rw [scanEnv_dollar_nil, scanEnv_dollar_nil]
        | cons d rest2 =>
          simp only [List.length_cons] at hn hf hg
          by_cases hd : d = '{'
          · subst hd
            cases hemp : (rest2.takeWhile isBraceNameChar).isEmpty with
            | true =>
              rw [scanEnv_brace_empty _ _ _ hemp, scanEnv_brace_empty _ _ _ hemp]
              congr 1
              exact ih ('{' :: rest2) f1 g1 (by simp only [List.length_cons]; omega)
                (by simp only [List.length_cons]; omega) (by simp only [List.length_cons]; omega)
            | false =>
              rcases hdr : rest2.drop (rest2.takeWhile isBraceNameChar).length with _ | ⟨e, tail⟩
              · rw [scanEnv_brace_nohit_nil _ _ _ hemp hdr,
                  scanEnv_brace_nohit_nil _ _ _ hemp hdr]
                congr 1
                exact ih ('{' :: rest2) f1 g1 (by simp only [List.length_cons]; omega)
                  (by simp only [List.length_cons]; omega) (by simp only [List.length_cons]; omega)
              · by_cases he : e = '}'
                · subst he
                  rw [scanEnv_brace_hit _ _ _ _ hemp hdr, scanEnv_brace_hit _ _ _ _ hemp hdr]
                  congr 1
                  have hdl := congrArg List.length hdr
                  simp only [List.length_drop, List.length_cons] at hdl
                  exact ih tail f1 g1 (by omega) (by omega) (by omega)
                · rw [scanEnv_brace_nohit_cons _ _ _ _ _ hemp hdr he,
                    scanEnv_brace_nohit_cons _ _ _ _ _ hemp hdr he]
                  congr 1
                  exact ih ('{' :: rest2) f1 g1 (by simp only [List.length_cons]; omega)
                    (by simp only [List.length_cons]; omega)
                    (by simp only [List.length_cons]; omega)
          · cases hemp : ((d :: rest2).takeWhile isNameChar).isEmpty with
            | true =>
              rw [scanEnv_name_miss _ _ _ _ hd hemp, scanEnv_name_miss _ _ _ _ hd hemp]
              congr 1
              exact ih (d :: rest2) f1 g1 (by simp only [List.length_cons]; omega)
                (by simp only [List.length_cons]; omega) (by simp only [List.length_cons]; omega)
            | false =>
              rw [scanEnv_name_hit _ _ _ _ hd hemp, scanEnv_name_hit _ _ _ _ hd hemp]
              congr 1
              have hlen1 : 1 ≤ ((d :: rest2).takeWhile isNameChar).length := by
                rcases htw : (d :: rest2).takeWhile isNameChar with _ | ⟨x, xs⟩
                · rw [htw] at hemp
                  simp at hemp
                · simp
              have hdl : ((d :: rest2).drop ((d :: rest2).takeWhile isNameChar).length).length
                  = rest2.length + 1 - ((d :: rest2).takeWhile isNameChar).length := by
                simp [List.length_drop]
              exact ih _ f1 g1 (by omega) (by omega) (by omega)
      · rw [scanEnv_lit _ _ _ _ hc, scanEnv_lit _ _ _ _ hc]
        congr 1
        exact ih rest f1 g1 (by omega) (by omega) (by omega)

theorem takeWhile_append_stop {p : Char → Bool} :
    ∀ (l1 l2 : List Char), (∀ c ∈ l1, p c = true) →
      (∀ c, l2.head? = some c → p c = false) →
      (l1 ++ l2).takeWhile p = l1 := by
  intro l1
  induction l1 with
  | nil =>
    intro l2 _ h2
    cases l2 with
    | nil => rfl
    | cons c r => simp [List.takeWhile_cons, h2 c rfl]
  | cons x xs ih =>
    intro l2 h1 h2
    simp [List.takeWhile_cons, h1 x (by simp),
      ih l2 (fun c hc => h1 c (by simp [hc])) h2]

theorem replaceEnv_braceToken (env : String → Option String) (name rest : String)
    (hne : name.data ≠ [])
    (hok : ∀ c ∈ name.data, isBraceNameChar c = true) :
    replaceEnvVars env ("$\x7b" ++ name ++ "\x7d" ++ rest)
      = ((env name).getD "") ++ replaceEnvVars env rest := by
  have hpre : ("$\x7b" : String).data = ['$', '{'] := by decide
  have hbr : ("\x7d" : String).data = ['}'] := by decide
  have hdata : ("$\x7b" ++ name ++ "\x7d" ++ rest).data
      = '$' :: '{' :: (name.data ++ '}' :: rest.data) := by
    rw [String.data_append, String.data_append, String.data_append, hpre, hbr]
    simp
  have htw : (name.data ++ '}' :: rest.data).takeWhile isBraceNameChar = name.data :=
    takeWhile_append_stop name.data ('}' :: rest.data) hok
      (fun c hc => by
        have : c = '}' := by injection hc with h0; exact h0.symm
        subst this
        decide)
  have hemp : ((name.data ++ '}' :: rest.data).takeWhile isBraceNameChar).isEmpty = false := by
    rw [htw]
    rcases hnd : name.data with _ | ⟨a, as⟩
    · exact absurd hnd hne
    · rfl
  have hdr : (name.data ++ '}' :: rest.data).drop
      ((name.data ++ '}' :: rest.data).takeWhile isBraceNameChar).length
        = '}' :: rest.data := by
    rw [htw]
    exact List.drop_left name.data ('}' :: rest.data)
  have hlen : ('$' :: '{' :: (name.data ++ '}' :: rest.data)).length
      = (name.data.length + rest.data.length + 2) + 1 := by
    simp only [List.length_cons, List.length_append]
    try omega
  simp only [replaceEnvVars, hdata, hlen]
  rw [scanEnv_brace_hit env _ _ _ hemp hdr, htw]
  have hmk : String.mk name.data = name := rfl
  rw [hmk]
  rw [scanEnv_fuel env (name.data.length + rest.data.length + 2) rest.data
    (name.data.length + rest.data.length + 2) rest.data.length (by omega) (by omega) le_rfl]
  rfl

theorem replaceEnv_nameToken (env : String → Option String) (name rest : String)
    (hne : name.data ≠ [])
    (hok : ∀ c ∈ name.data, isNameChar c = true)
    (hstop : ∀ c, rest.data.head? = some c → isNameChar c = false) :
    replaceEnvVars env ("$" ++ name ++ rest)
      = ((env name).getD "") ++ replaceEnvVars env rest := by
  have hpre : ("$" : String).data = ['$'] := by decide
  rcases hnd : name.data with _ | ⟨d, ds⟩
  · exact absurd hnd hne
  have hdata : ("$" ++ name ++ rest).data = '$' :: d :: (ds ++ rest.data) := by
    rw [String.data_append, String.data_append, hpre, hnd]
    simp
  have hd : d ≠ '{' := by
    intro he
    have := hok d (by rw [hnd]; simp)
    rw [he] at this
    exact absurd this (by decide)
  have htw : ((d :: ds) ++ rest.data).takeWhile isNameChar = d :: ds :=
    takeWhile_append_stop (d :: ds) rest.data
      (fun c hc => hok c (by rw [hnd]; exact hc)) hstop
  have htw2 : (d :: (ds ++ rest.data)).takeWhile isNameChar = d :: ds := htw
  have hemp : ((d :: (ds ++ rest.data)).takeWhile isNameChar).isEmpty = false := by
    rw [htw2]
    rfl
  have hlen : ('$' :: d :: (ds ++ rest.data)).length
      = (ds.length + rest.data.length + 1) + 1 := by
    simp only [List.length_cons, List.length_append]
    try omega
  simp only [replaceEnvVars, hdata, hlen]
  rw [scanEnv_name_hit env _ _ _ hd hemp, htw2]
  have hdrop : (d :: (ds ++ rest.data)).drop (d :: ds).length = rest.data := by
    have : (d :: (ds ++ rest.data)) = (d :: ds) ++ rest.data := by simp
    rw [this]
    exact List.drop_left (d :: ds) rest.data
  rw [hdrop]
  have hmk : String.mk (d :: ds) = name := by rw [← hnd]
  rw [hmk]
  rw [scanEnv_fuel env (ds.length + rest.data.length + 1) rest.data
    (ds.length + rest.data.length + 1) rest.data.length (by omega) (by omega) le_rfl]
  rfl

/-- A process environment with `HOME=/home/u` and nothing else. -/
def homeEnv : String → Option String :=
  fun n => if n = "HOME" then some "/home/u" else none

/-- C8: every `${NAME}` token (nonempty `NAME` over `[^}^{]`) and every
maximal `$NAME` token (nonempty `NAME` over `[a-zA-Z0-9_]`) in a string value
is replaced by the environment's value for `NAME`, or the empty string when
unset; in particular `"${HOME}/x"` becomes `"/home/u/x"` under `HOME=/home/u`
and `"/x"` when `HOME` is unset. -/
theorem c8_env_substitution :
    (∀ (env : String → Option String) (name rest : String),
      name.data ≠ [] → (∀ c ∈ name.data, isBraceNameChar c = true) →
      replaceEnvVars env ("$\x7b" ++ name ++ "\x7d" ++ rest)
        = ((env name).getD "") ++ replaceEnvVars env rest)
    ∧ (∀ (env : String → Option String) (name rest : String),
      name.data ≠ [] → (∀ c ∈ name.data, isNameChar c = true) →
      (∀ c, rest.data.head? = some c → isNameChar c = false) →
      replaceEnvVars env ("$" ++ name ++ rest)
        = ((env name).getD "") ++ replaceEnvVars env rest)
    ∧ replaceEnvVars homeEnv "$\x7bHOME\x7d/x" = "/home/u/x"
    ∧ replaceEnvVars (fun _ => none) "$\x7bHOME\x7d/x" = "/x" :=
  ⟨replaceEnv_braceToken, replaceEnv_nameToken, by decide, by decide⟩

/-- Witness for `c8_env_substitution`'s token rules at `HOME` with rest
`"/x"`. -/
theorem c8_env_substitution_witness :
    replaceEnvVars homeEnv ("$\x7b" ++ "HOME" ++ "\x7d" ++ "/x")
        = ((homeEnv "HOME").getD "") ++ replaceEnvVars homeEnv "/x"
    ∧ replaceEnvVars homeEnv ("$" ++ "HOME" ++ "/x")
        = ((homeEnv "HOME").getD "") ++ replaceEnvVars homeEnv "/x" :=
  ⟨c8_env_substitution.1 homeEnv "HOME" "/x" (by decide) (by decide),
    c8_env_substitution.2.1 homeEnv "HOME" "/x" (by decide) (by decide) (by decide)⟩

/-! ### C9: descriptor lifecycle (`_prepare_file_descriptors`,
`_cleanup_file_descriptors`, `execute` in `src/runner.py`) -/

/-- Kernel-side descriptor state: the next number `os.open` returns and the
list of currently open descriptors, in opening order. -/
structure FdState where
  next : Nat
  openFds : List Nat
deriving DecidableEq

/-- `os.open(path, os.O_RDONLY)`: allocate the next descriptor. -/
def osOpen (st : FdState) : Nat × FdState :=
  (st.next, ⟨st.next + 1, st.openFds ++ [st.next]⟩)

/-- `os.close(fd)`. -/
def osClose (st : FdState) (fd : Nat) : FdState :=
  ⟨st.next, st.openFds.erase fd⟩

/-- `self.fd_map[path] = fd`: dict assignment, keyed by path — a duplicate
path overwrites the earlier entry. -/
def setFd (m : List (String × Nat)) (p : String) (fd : Nat) : List (String × Nat) :=
  match m with
  | [] => [(p, fd)]
  | (p0, f0) :: rest => if p0 = p then (p0, fd) :: rest else (p0, f0) :: setFd rest p fd

/-- The seccomp loop of `_prepare_file_descriptors`: open each path, record it
in `fd_map`, append the descriptor to the pass list. Returns the map, the
pass list and the descriptor state. (The numeric descriptors — `add_seccomp_fd`
and the control/sync/args descriptors — are appended to the pass list
afterwards and never enter `fd_map`.) -/
def prepareSeccomp (paths : List String) (st : FdState) :
    List (String × Nat) × List Nat × FdState :=
  paths.foldl
    (fun acc p =>
      ((setFd acc.1 p (osOpen acc.2.2).1, acc.2.1 ++ [(osOpen acc.2.2).1],
        (osOpen acc.2.2).2)))
    ([], [], st)

/-- `_cleanup_file_descriptors`: close every descriptor recorded in `fd_map`
(run in `execute`'s `finally`, on success and on every failure path). -/
def cleanupFds (m : List (String × Nat)) (st : FdState) : FdState :=
  m.foldl (fun s kv => osClose s kv.2) st

/-- One run of `execute`'s descriptor lifecycle for the seccomp path entries:
prepare, then the unconditional cleanup. -/
def runFdLifecycle (paths : List String) : FdState :=
  cleanupFds (prepareSeccomp paths ⟨0, []⟩).1 (prepareSeccomp paths ⟨0, []⟩).2.2

/-- C9 evidence: with the duplicate seccomp path list `["/p", "/p"]` the run
opens descriptors 0 and 1, but `fd_map` (keyed by path) retains only
descriptor 1, so cleanup closes only descriptor 1 and descriptor 0 remains
open after the run — the first opened descriptor leaks. With distinct paths
every opened descriptor is closed. -/
theorem c9_duplicate_path_leak :
    (prepareSeccomp ["/p", "/p"] ⟨0, []⟩).2.2.openFds = [0, 1]
    ∧ (prepareSeccomp ["/p", "/p"] ⟨0, []⟩).1 = [("/p", 1)]
    ∧ (runFdLifecycle ["/p", "/p"]).openFds = [0]
    ∧ (runFdLifecycle ["/p", "/q"]).openFds = [] := by
  refine ⟨by decide, by decide, by decide, by decide⟩
